import Mathlib

/-!
Verification development for the EloWard rank lookup module
(site/twitch.tv/modules/eloward/composables/useEloWardRanks.ts).

The module implements a bounded LRU cache with dual expiry policies
(positive versus negative entries), an in-flight request registry used to
de-duplicate concurrent lookups, a fetch coordinator that classifies HTTP
responses, and pure badge formatting helpers.  The definitions below are a
shallow embedding of that code: JavaScript Map objects become association
lists that preserve insertion order, timestamps become natural numbers,
promises become explicit request identifiers, and the event-loop becomes a
step function over an explicit world state.  JavaScript string builtins
(toLowerCase, toUpperCase, split, encodeURIComponent) are modelled by
executable Lean functions; the case conversions are modelled on the ASCII
range, which is the range exercised by the module (usernames, tier names
and region codes).
-/

namespace EloWard

/-! ### Constants from the source module -/

def API_BASE_URL : String := "https://eloward-ranks.unleashai.workers.dev/api/ranks/lol"

def CDN_BASE_URL : String := "https://eloward-cdn.unleashai.workers.dev/lol"

def DEFAULT_CACHE_DURATION : Nat := 60 * 60 * 1000

def NEGATIVE_CACHE_DURATION : Nat := 15 * 60 * 1000

def MAX_CACHE_SIZE : Nat := 500

def BADGE_CACHE_VERSION : String := "3"

/-! ### Models of JavaScript string builtins -/

/-- Model of the effect of String.prototype.toLowerCase on one ASCII
character: the code points 65 to 90 (A to Z) are shifted to 97 to 122. -/
def asciiToLower (c : Char) : Char :=
  if 65 ≤ c.toNat ∧ c.toNat ≤ 90 then Char.ofNat (c.toNat + 32) else c

/-- Model of the effect of String.prototype.toUpperCase on one ASCII
character: the code points 97 to 122 (a to z) are shifted to 65 to 90. -/
def asciiToUpper (c : Char) : Char :=
  if 97 ≤ c.toNat ∧ c.toNat ≤ 122 then Char.ofNat (c.toNat - 32) else c

/-- Model of String.prototype.toLowerCase (ASCII range). -/
def jsToLower (s : String) : String := ⟨s.data.map asciiToLower⟩

/-- Model of String.prototype.toUpperCase (ASCII range). -/
def jsToUpper (s : String) : String := ⟨s.data.map asciiToUpper⟩

/-- Model of String.prototype.split with a single-character separator:
splits at every occurrence of the separator, keeping empty segments,
exactly as JavaScript does. -/
def jsSplitCharAux (sep : Char) : List Char → List Char → List String
  | [], acc => [⟨acc.reverse⟩]
  | x :: xs, acc =>
    if x = sep then ⟨acc.reverse⟩ :: jsSplitCharAux sep xs []
    else jsSplitCharAux sep xs (x :: acc)

/-- Model of String.prototype.split with a one-character separator. -/
def jsSplitChar (sep : Char) (s : String) : List String :=
  jsSplitCharAux sep s.data []

/-- The characters encodeURIComponent leaves unescaped:
letters, digits, and - _ . ! ~ * apostrophe ( ). -/
def isUnreservedURIChar (c : Char) : Bool :=
  (65 ≤ c.toNat && c.toNat ≤ 90) || (97 ≤ c.toNat && c.toNat ≤ 122) ||
  (48 ≤ c.toNat && c.toNat ≤ 57) ||
  c.toNat = 45 || c.toNat = 95 || c.toNat = 46 || c.toNat = 33 ||
  c.toNat = 126 || c.toNat = 42 || c.toNat = 39 || c.toNat = 40 || c.toNat = 41

/-- Upper-case hexadecimal digit for a value below 16. -/
def hexDigit (n : Nat) : Char :=
  (['0', '1', '2', '3', '4', '5', '6', '7', '8', '9',
    'A', 'B', 'C', 'D', 'E', 'F']).getD n '0'

/-- UTF-8 byte sequence of a code point. -/
def utf8Bytes (n : Nat) : List Nat :=
  if n < 128 then [n]
  else if n < 2048 then [192 + n / 64, 128 + n % 64]
  else if n < 65536 then [224 + n / 4096, 128 + (n / 64) % 64, 128 + n % 64]
  else [240 + n / 262144, 128 + (n / 4096) % 64, 128 + (n / 64) % 64, 128 + n % 64]

/-- Percent-escape of one byte. -/
def percentByte (b : Nat) : String := ⟨['%', hexDigit (b / 16), hexDigit (b % 16)]⟩

/-- Model of the JavaScript builtin encodeURIComponent. -/
def encodeURIComponent (s : String) : String :=
  s.data.foldl
    (fun acc c =>
      acc ++ (if isUnreservedURIChar c then String.singleton c
              else String.join ((utf8Bytes c.toNat).map percentByte))) ""

/-! ### Association-list model of a JavaScript Map

JavaScript Map iterates in insertion order; setting an existing key keeps
its position, deleting and re-inserting moves it to the end.  The LRU cache
relies on exactly this, so the model keeps the list order significant. -/

/-- Lookup in an insertion-ordered association list (Map.prototype.get). -/
def lookupKey (m : List (String × α)) (k : String) : Option α :=
  match m with
  | [] => none
  | p :: rest => if p.1 = k then some p.2 else lookupKey rest k

/-- Map.prototype.set: replace in place when the key is present, otherwise
append at the end (most recent position). -/
def mapSet (m : List (String × α)) (k : String) (v : α) : List (String × α) :=
  if (lookupKey m k).isSome then
    m.map (fun p => if p.1 = k then (p.1, v) else p)
  else m ++ [(k, v)]

/-- Map.prototype.delete. -/
def mapDelete (m : List (String × α)) (k : String) : List (String × α) :=
  m.filter (fun p => p.1 ≠ k)

/-- The keys of the map, in insertion order. -/
def mapKeys (m : List (String × α)) : List String := m.map Prod.fst

/-! ### Data model -/

/-- The EloWardRankData interface: result of a successful lookup.
Optional fields model the optional interface members; a JavaScript
missing-or-undefined value is `none`. -/
structure EloWardRankData where
  tier : String
  division : Option String := none
  leaguePoints : Option Int := none
  summonerName : Option String := none
  region : Option String := none
  animate_badge : Option Bool := none
deriving DecidableEq, Repr

/-- The EloWardBadge interface: display-ready badge descriptor. -/
structure EloWardBadge where
  id : String
  tier : String
  division : Option String := none
  imageUrl : String
  animated : Bool
  summonerName : Option String := none
  region : Option String := none
  leaguePoints : Option Int := none
deriving DecidableEq, Repr

/-- The CacheEntry interface: `data = none` is the negative marker
(cached confirmation that the user has no rank). -/
structure CacheEntry where
  data : Option EloWardRankData
  timestamp : Nat
deriving DecidableEq, Repr

/-- The LRU cache contents: a JavaScript Map in insertion order. -/
abbrev CacheMap := List (String × CacheEntry)

/-- The expiry duration selected for an entry: the shorter duration for the
negative marker, the longer one for a positive result (LRUCache.get). -/
def entryDuration (e : CacheEntry) : Nat :=
  match e.data with
  | none => NEGATIVE_CACHE_DURATION
  | some _ => DEFAULT_CACHE_DURATION

/-- LRUCache.get: lowercases the key, returns `none` for a miss
(never inserted, or expired - the expired entry is deleted), and on a hit
deletes and re-inserts the entry so it moves to the most-recent end.
The returned value `some d` carries `d : Option EloWardRankData`, where
`d = none` is the negative-cache hit.  Returns the result together with
the updated cache. -/
def lruGet (c : CacheMap) (username : String) (now : Nat) :
    Option (Option EloWardRankData) × CacheMap :=
  let key := jsToLower username
  match lookupKey c key with
  | none => (none, c)
  | some entry =>
    if now - entry.timestamp > entryDuration entry then
      (none, mapDelete c key)
    else
      (some entry.data, mapSet (mapDelete c key) key entry)

/-- LRUCache.set: lowercases the key; when the cache is at capacity and the
key is new, deletes the first key of the map - but only when that first key
is truthy, mirroring the `if (firstKey)` guard in the source, which skips
the eviction when the first key is the empty string; then writes the entry
with the current timestamp. -/
def lruSet (maxSize : Nat) (c : CacheMap) (username : String)
    (d : Option EloWardRankData) (now : Nat) : CacheMap :=
  let key := jsToLower username
  let c₁ :=
    if c.length ≥ maxSize ∧ ¬(lookupKey c key).isSome then
      match c.head? with
      | some (firstKey, _) => if firstKey ≠ "" then mapDelete c firstKey else c
      | none => c
    else c
  mapSet c₁ key ⟨d, now⟩

/-- An operation on the bounded cache, for stating sequence invariants. -/
inductive CacheOp where
  | get (username : String) (now : Nat)
  | set (username : String) (d : Option EloWardRankData) (now : Nat)
  | clear
deriving Repr

/-- Effect of one operation on the cache contents. -/
def applyOp (maxSize : Nat) (c : CacheMap) : CacheOp → CacheMap
  | .get u now => (lruGet c u now).2
  | .set u d now => lruSet maxSize c u d now
  | .clear => []

/-- Run a sequence of operations against an initially empty cache. -/
def runOps (maxSize : Nat) (ops : List CacheOp) : CacheMap :=
  ops.foldl (applyOp maxSize) []

/-- The key named by an operation, when it has one. -/
def opKey : CacheOp → Option String
  | .get u _ => some u
  | .set u _ _ => some u
  | .clear => none

/-! ### Pure badge helpers -/

/-- The RANK_TIERS set. -/
def RANK_TIERS : List String :=
  ["iron", "bronze", "silver", "gold", "platinum", "emerald", "diamond",
   "master", "grandmaster", "challenger", "unranked"]

/-- getImageUrl: CDN badge asset address. -/
def getImageUrl (tier : String) (isAnimated : Bool) : String :=
  CDN_BASE_URL ++ "/" ++ tier ++ (if isAnimated then "_premium" else "") ++
    (if isAnimated then ".webp" else ".png") ++ "?v=" ++ BADGE_CACHE_VERSION

/-- getRankBadge: projection of a rank record into a badge descriptor.
The truthiness tests of the source (`!rankData?.tier`,
`rankData.division ? ... : ...`) become emptiness tests. -/
def getRankBadge (rankData : EloWardRankData) : Option EloWardBadge :=
  if rankData.tier = "" then none
  else
    let tier := jsToLower rankData.tier
    if ¬(RANK_TIERS.contains tier) then none
    else
      let shouldAnimate := rankData.animate_badge.getD false
      let imageUrl := getImageUrl tier shouldAnimate
      some
        { id := "eloward-" ++ tier ++
            (match rankData.division with
             | some dv => if dv ≠ "" then "-" ++ dv else ""
             | none => "")
          tier := jsToUpper rankData.tier
          division := rankData.division
          imageUrl := imageUrl
          animated := shouldAnimate
          summonerName := rankData.summonerName
          region := rankData.region
          leaguePoints := rankData.leaguePoints }

/-- The badge written for a resolved value: the projected badge for a
rank record, null for a null resolution (`rankData ? getRankBadge(rankData)
: null`). -/
def projectBadge (v : Option EloWardRankData) : Option EloWardBadge :=
  match v with
  | some d => getRankBadge d
  | none => none

/-- formatRankText: display text for a rank record. -/
def formatRankText (rankData : EloWardRankData) : String :=
  if rankData.tier = "" then "UNRANKED"
  else
    let tierUpper := jsToUpper rankData.tier
    if tierUpper = "UNRANKED" then "UNRANKED"
    else
      let r₁ := tierUpper
      let r₂ :=
        match rankData.division with
        | some dv =>
          if dv ≠ "" ∧ ¬(["MASTER", "GRANDMASTER", "CHALLENGER"].contains tierUpper) then
            r₁ ++ " " ++ dv
          else r₁
        | none => r₁
      match rankData.leaguePoints with
      | some lp => r₂ ++ " - " ++ toString lp ++ " LP"
      | none => r₂

/-- Follows the claim wording for the display text: UNRANKED when the tier
is missing or equals unranked case-insensitively; otherwise the uppercased
tier, followed by a space and the division when a division is present and
the tier is not master, grandmaster or challenger, followed by the league
points suffix when leaguePoints is present. -/
def formatRankTextClaimed (rankData : EloWardRankData) : String :=
  if rankData.tier = "" ∨ jsToLower rankData.tier = "unranked" then "UNRANKED"
  else
    let base := jsToUpper rankData.tier
    let withDiv :=
      match rankData.division with
      | some dv =>
        if ¬(["MASTER", "GRANDMASTER", "CHALLENGER"].contains
            (jsToUpper rankData.tier)) then
          base ++ " " ++ dv
        else base
      | none => base
    match rankData.leaguePoints with
    | some lp => withDiv ++ " - " ++ toString lp ++ " LP"
    | none => withDiv

/-- The region display table of getRegionDisplay. -/
def regionMap : List (String × String) :=
  [("na1", "NA"), ("euw1", "EUW"), ("eun1", "EUNE"), ("kr", "KR"),
   ("br1", "BR"), ("jp1", "JP"), ("la1", "LAN"), ("la2", "LAS"),
   ("oc1", "OCE"), ("tr1", "TR"), ("ru", "RU"), ("ph2", "PH"),
   ("sg2", "SG"), ("th2", "TH"), ("tw2", "TW"), ("vn2", "VN"),
   ("me1", "ME"), ("sea", "SEA")]

/-- getRegionDisplay: table lookup with uppercased fallback; empty or
missing input yields the empty string. -/
def getRegionDisplay (region : Option String) : String :=
  match region with
  | none => ""
  | some r =>
    if r = "" then ""
    else (lookupKey regionMap (jsToLower r)).getD (jsToUpper r)

/-- The OP.GG region table of getOpGGUrl (no "sea" entry, lowercase
slugs - a different value set from the display table). -/
def regionMapping : List (String × String) :=
  [("na1", "na"), ("euw1", "euw"), ("eun1", "eune"), ("kr", "kr"),
   ("br1", "br"), ("jp1", "jp"), ("la1", "lan"), ("la2", "las"),
   ("oc1", "oce"), ("tr1", "tr"), ("ru", "ru"), ("ph2", "ph"),
   ("sg2", "sg"), ("th2", "th"), ("tw2", "tw"), ("vn2", "vn"),
   ("me1", "me")]

/-- getOpGGUrl: external profile URL.  The falsy guards of the source
(`!rankData?.summonerName || !rankData?.region`) become none-or-empty
tests; `split("#")` keeps only the first two segments via the array
destructuring; a missing or empty tag falls back to the uppercased
region code (`tagLine || region.toUpperCase()`). -/
def getOpGGUrl (rankData : EloWardRankData) : Option String :=
  match rankData.summonerName, rankData.region with
  | some sn, some rg =>
    if sn = "" ∨ rg = "" then none
    else
      match lookupKey regionMapping (jsToLower rg) with
      | none => none
      | some opGGRegion =>
        let parts := jsSplitChar '#' sn
        let summonerName := parts.headD ""
        let tagLine := parts.get? 1
        let encodedName := encodeURIComponent summonerName
        let tag :=
          match tagLine with
          | some t => if t = "" then jsToUpper rg else t
          | none => jsToUpper rg
        some ("https://op.gg/lol/summoners/" ++ opGGRegion ++ "/" ++
          encodedName ++ "-" ++ tag)
  | _, _ => none

/-- Follows the claim wording for the OP.GG URL: absent unless summoner
name and region are present and the lowercased region is a key of the
OP.GG table; otherwise the summoner name is split on the first hash sign
into base name and tag (the tag being everything after that first hash
sign), the base name is percent-encoded, and with no tag the uppercased
region code is the fallback. -/
def getOpGGUrlClaimed (rankData : EloWardRankData) : Option String :=
  match rankData.summonerName, rankData.region with
  | some sn, some rg =>
    match lookupKey regionMapping (jsToLower rg) with
    | none => none
    | some opGGRegion =>
      let parts := jsSplitChar '#' sn
      let base := parts.headD ""
      let tag :=
        if parts.length ≥ 2 then String.intercalate "#" parts.tail
        else jsToUpper rg
      some ("https://op.gg/lol/summoners/" ++ opGGRegion ++ "/" ++
        encodeURIComponent base ++ "-" ++ tag)
  | _, _ => none

/-! ### Fetch coordinator model

The module runs on a single-threaded event loop: a call to fetchRankData
executes synchronously (atomically) up to the `await fetch`, and the
request body resumes atomically when the network settles.  The model makes
these two atomic phases explicit: `fetchSync` is the synchronous prefix of
fetchRankData (guards, cache check, registry check, request creation and
registration), and `settleStep` is the resumption (response
classification, cache write, the `finally` cleanup, and the `.then`
continuations attached by getOrFetchBadge).  Promises are identified by
request ids; `netCalls` counts outbound fetch invocations. -/

/-- The parsed JSON body of a successful response.  Absent fields are
`none`; `rank_tier = some ""` models the falsy empty string. -/
structure ApiBody where
  rank_tier : Option String := none
  rank_division : Option String := none
  lp : Option Int := none
  riot_id : Option String := none
  region : Option String := none
  animate_badge : Option Bool := none
deriving DecidableEq, Repr

/-- How a network request settles: a response with a status code and a
body-parse result (`none` models a JSON parse exception), or a thrown
exception, which also covers network errors, aborts and the 5-second
AbortSignal timeout. -/
inductive FetchOutcome where
  | response (status : Nat) (body : Option ApiBody)
  | exception
deriving DecidableEq, Repr

/-- The process-wide mutable state of the module: the rank cache, the
pendingRequests registry (key to request id), the reactive badge store,
the store-writing continuations registered by getOrFetchBadge (request id
to store key), a fresh-id counter, the number of outbound fetch calls
made, and the isLoading flag. -/
structure Wstate where
  cache : CacheMap
  pending : List (String × Nat)
  userBadges : List (String × Option EloWardBadge)
  conts : List (Nat × String)
  nextReq : Nat
  netCalls : Nat
  isLoading : Bool
deriving DecidableEq, Repr

/-- The empty initial state. -/
def initState : Wstate :=
  { cache := [], pending := [], userBadges := [], conts := [],
    nextReq := 0, netCalls := 0, isLoading := false }

/-- What the synchronous prefix of fetchRankData hands back to its caller:
an immediately resolved value (guard short-circuit or cache hit), the id
of an existing in-flight request the caller now awaits, or the id of a
newly created request whose fetch was just issued. -/
inductive CallRes where
  | value (v : Option EloWardRankData)
  | attach (rid : Nat)
  | startFetch (rid : Nat)
deriving DecidableEq, Repr

/-- The synchronous prefix of fetchRankData: the disabled/empty-username
guard, the cache check (which may expire or promote an entry), the
pendingRequests check, and otherwise the creation of the request - whose
body runs synchronously up to `await fetch` (setting isLoading and issuing
the network call) before the promise is registered. -/
def fetchSync (enabled : Bool) (username : String) (now : Nat) (st : Wstate) :
    Wstate × CallRes :=
  if ¬enabled ∨ username = "" then (st, .value none)
  else
    let key := jsToLower username
    let r := lruGet st.cache key now
    let st₁ := { st with cache := r.2 }
    match r.1 with
    | some v => (st₁, .value v)
    | none =>
      match lookupKey st.pending key with
      | some rid => (st₁, .attach rid)
      | none =>
        ({ st₁ with
            isLoading := true
            netCalls := st₁.netCalls + 1
            pending := mapSet st₁.pending key st₁.nextReq
            nextReq := st₁.nextReq + 1 },
          .startFetch st₁.nextReq)

/-- Response classification of the request body (fetchRankData lines
207-247): a 404 writes the negative marker; any other non-2xx status
writes nothing; a parse exception is caught and writes nothing; a 2xx body
whose rank_tier is falsy or not a recognized tier (case-insensitively)
writes the negative marker; a valid body builds the rank record and writes
it positively.  Returns the updated cache and the resolved value. -/
def settleBody (cache : CacheMap) (key : String) (outcome : FetchOutcome)
    (now : Nat) : CacheMap × Option EloWardRankData :=
  match outcome with
  | .exception => (cache, none)
  | .response status body? =>
    if status = 404 then (lruSet MAX_CACHE_SIZE cache key none now, none)
    else if ¬(200 ≤ status ∧ status ≤ 299) then (cache, none)
    else
      match body? with
      | none => (cache, none)
      | some data =>
        match data.rank_tier with
        | none => (lruSet MAX_CACHE_SIZE cache key none now, none)
        | some t =>
          if t = "" ∨ ¬(RANK_TIERS.contains (jsToLower t)) then
            (lruSet MAX_CACHE_SIZE cache key none now, none)
          else
            let rankData : EloWardRankData :=
              { tier := t
                division := data.rank_division
                leaguePoints := data.lp
                summonerName := data.riot_id
                region := data.region
                animate_badge := data.animate_badge }
            (lruSet MAX_CACHE_SIZE cache key (some rankData) now, some rankData)

/-- The settlement of the request registered under `key` with id `rid`:
the classification, then the `finally` block (clear isLoading, delete the
registry entry - on every path, exception included), then the `.then`
continuations of getOrFetchBadge attached to this request, which write the
projected badge (or null) into the badge store. -/
def settleStep (st : Wstate) (key : String) (rid : Nat)
    (outcome : FetchOutcome) (now : Nat) : Wstate × Option EloWardRankData :=
  let r := settleBody st.cache key outcome now
  let badge : Option EloWardBadge := projectBadge r.2
  let badges' := (st.conts.filter (fun p => p.1 = rid)).foldl
    (fun b p => mapSet b p.2 badge) st.userBadges
  ({ st with
      cache := r.1
      pending := mapDelete st.pending key
      isLoading := false
      userBadges := badges'
      conts := st.conts.filter (fun p => p.1 ≠ rid) },
    r.2)

/-- getOrFetchBadge: its own guards, its own cache check (writing the
projected badge into the store on a hit), its own pendingRequests check
(returning with no store write when a request is in flight), and otherwise
a delegated fetchRankData call whose `.then` continuation will write the
store when the request settles. -/
def getOrFetchBadge (enabled : Bool) (username : String) (now : Nat)
    (st : Wstate) : Wstate :=
  if ¬enabled ∨ username = "" then st
  else
    let key := jsToLower username
    let r := lruGet st.cache key now
    let st₁ := { st with cache := r.2 }
    match r.1 with
    | some v =>
      { st₁ with userBadges := mapSet st₁.userBadges key (projectBadge v) }
    | none =>
      if (lookupKey st₁.pending key).isSome then st₁
      else
        let r₂ := fetchSync enabled username now st₁
        match r₂.2 with
        | .value v =>
          { r₂.1 with userBadges := mapSet r₂.1.userBadges key (projectBadge v) }
        | .attach rid => { r₂.1 with conts := r₂.1.conts ++ [(rid, key)] }
        | .startFetch rid => { r₂.1 with conts := r₂.1.conts ++ [(rid, key)] }

/-- Follows the spec words for the secondary operation: run the primary
resolve operation (fetchRankData) and project its result straight into the
reactive badge store for the normalized key - immediately when the resolve
returns a value, else through a continuation on the awaited request. -/
def getOrFetchBadgeSpec (enabled : Bool) (username : String) (now : Nat)
    (st : Wstate) : Wstate :=
  let key := jsToLower username
  let r := fetchSync enabled username now st
  match r.2 with
  | .value v =>
    { r.1 with userBadges := mapSet r.1.userBadges key (projectBadge v) }
  | .attach rid => { r.1 with conts := r.1.conts ++ [(rid, key)] }
  | .startFetch rid => { r.1 with conts := r.1.conts ++ [(rid, key)] }

/-- A concrete world state in which a request for the key "alice" (with
request id 0) is in flight and nothing is cached or stored. -/
def c6state : Wstate :=
  { cache := [], pending := [("alice", 0)], userBadges := [], conts := [],
    nextReq := 1, netCalls := 1, isLoading := true }

/-- An atomic event of the event loop: a fetchRankData call prefix, a
getOrFetchBadge call, or the settlement of a request. -/
inductive Act where
  | call (enabled : Bool) (username : String) (now : Nat)
  | gof (enabled : Bool) (username : String) (now : Nat)
  | settle (key : String) (rid : Nat) (outcome : FetchOutcome) (now : Nat)

/-- Effect of one event on the world state. -/
def stepAct (st : Wstate) : Act → Wstate
  | .call enabled u now => (fetchSync enabled u now st).1
  | .gof enabled u now => getOrFetchBadge enabled u now st
  | .settle key rid outcome now => (settleStep st key rid outcome now).1

/-- Run a sequence of events from the initial empty state. -/
def runTrace (acts : List Act) : Wstate := acts.foldl stepAct initState

/-- The size-and-key invariant maintained by the cache when all written
keys are nonempty: every stored key is nonempty and the entry count stays
within the capacity. -/
def cacheInv (m : Nat) (c : CacheMap) : Prop :=
  (∀ p ∈ c, p.1 ≠ "") ∧ c.length ≤ m

/-- The registry invariant: at most one pending entry per key. -/
def registryNodup (st : Wstate) : Prop := (mapKeys st.pending).Nodup

/-! ### Lemmas about the Map model -/

theorem lookupKey_append_some {m m' : List (String × α)} {k : String} {v : α}
    (h : lookupKey m k = some v) : lookupKey (m ++ m') k = some v := by
  induction m with
  | nil => simp [lookupKey] at h
  | cons p rest ih =>
    by_cases hp : p.1 = k
    · simp only [lookupKey, if_pos hp] at h ⊢
      exact h
    · simp only [lookupKey, if_neg hp] at h ⊢
      exact ih h

theorem lookupKey_append_none {m : List (String × α)} {k : String}
    (h : lookupKey m k = none) (m' : List (String × α)) :
    lookupKey (m ++ m') k = lookupKey m' k := by
  induction m with
  | nil => rfl
  | cons p rest ih =>
    by_cases hp : p.1 = k
    · simp [lookupKey, if_pos hp] at h
    · simp only [lookupKey, if_neg hp] at h ⊢
      exact ih h

theorem lookupKey_map_replace (m : List (String × α)) (k : String) (v : α) :
    lookupKey (m.map (fun p => if p.1 = k then (p.1, v) else p)) k =
      (lookupKey m k).map (fun _ => v) := by
  induction m with
  | nil => rfl
  | cons p rest ih =>
    by_cases hp : p.1 = k
    · simp [lookupKey, hp]
    · simp [lookupKey, hp, ih]

theorem lookupKey_mapSet_self (m : List (String × α)) (k : String) (v : α) :
    lookupKey (mapSet m k v) k = some v := by
  unfold mapSet
  split
  · rename_i h
    rw [lookupKey_map_replace]
    rcases ho : lookupKey m k with _ | w
    · rw [ho] at h; simp at h
    · rfl
  · rename_i h
    have hn : lookupKey m k = none := by
      rcases ho : lookupKey m k with _ | w
      · rfl
      · rw [ho] at h; simp at h
    rw [lookupKey_append_none hn]
    simp [lookupKey]

theorem lookupKey_mapDelete_self (m : List (String × α)) (k : String) :
    lookupKey (mapDelete m k) k = none := by
  induction m with
  | nil => rfl
  | cons p rest ih =>
    by_cases hp : p.1 = k
    · simpa [mapDelete, List.filter, hp] using ih
    · simpa [mapDelete, List.filter, hp, lookupKey] using ih

theorem lookupKey_mapDelete_ne {k' k : String} (m : List (String × α))
    (h : k' ≠ k) : lookupKey (mapDelete m k) k' = lookupKey m k' := by
  induction m with
  | nil => rfl
  | cons p rest ih =>
    by_cases hp : p.1 = k
    · have hp' : p.1 ≠ k' := by rw [hp]; exact fun hh => h hh.symm
      simp only [mapDelete, List.filter, hp]
      simpa [lookupKey, hp', mapDelete] using ih
    · by_cases hq : p.1 = k'
      · simp [mapDelete, List.filter, hp, lookupKey, hq, h]
      · simp only [mapDelete, List.filter, hp, decide_not]
        simpa [lookupKey, hq, mapDelete] using ih

theorem lookupKey_eq_none_iff (m : List (String × α)) (k : String) :
    lookupKey m k = none ↔ k ∉ mapKeys m := by
  induction m with
  | nil => simp [lookupKey, mapKeys]
  | cons p rest ih =>
    by_cases hp : p.1 = k
    · simp [lookupKey, hp, mapKeys]
    · simp only [lookupKey, if_neg hp, mapKeys, List.map_cons, List.mem_cons]
      rw [ih]
      constructor
      · intro h hc
        rcases hc with hc | hc
        · exact hp hc.symm
        · exact h hc
      · intro h hc
        exact h (Or.inr hc)

theorem lookupKey_some_mem {m : List (String × α)} {k : String} {v : α}
    (h : lookupKey m k = some v) : (k, v) ∈ m := by
  induction m with
  | nil => simp [lookupKey] at h
  | cons p rest ih =>
    by_cases hp : p.1 = k
    · simp only [lookupKey, if_pos hp] at h
      have : p = (k, v) := by
        cases p
        simp_all
      simp [this]
    · simp only [lookupKey, if_neg hp] at h
      exact List.mem_cons_of_mem _ (ih h)

theorem length_mapDelete_le (m : List (String × α)) (k : String) :
    (mapDelete m k).length ≤ m.length :=
  List.length_filter_le _ m

theorem length_mapDelete_lt {m : List (String × α)} {k : String}
    (h : (lookupKey m k).isSome) : (mapDelete m k).length < m.length := by
  induction m with
  | nil => simp [lookupKey] at h
  | cons p rest ih =>
    by_cases hp : p.1 = k
    · simp only [mapDelete, List.filter, hp]
      simp only [decide_not, decide_True, Bool.not_true]
      have := length_mapDelete_le rest k
      simpa [mapDelete] using Nat.lt_succ_of_le this
    · simp only [lookupKey, if_neg hp] at h
      simp only [mapDelete, List.filter, hp]
      have := ih h
      simpa [mapDelete, hp] using Nat.succ_lt_succ this

theorem mem_mapDelete {m : List (String × α)} {k : String} {p : String × α}
    (h : p ∈ mapDelete m k) : p ∈ m :=
  List.mem_of_mem_filter h

theorem mapDelete_eq_self {m : List (String × α)} {k : String}
    (h : ∀ p ∈ m, p.1 ≠ k) : mapDelete m k = m := by
  unfold mapDelete
  apply List.filter_eq_self.mpr
  intro p hp
  simpa using h p hp

theorem mapKeys_map_replace (m : List (String × α)) (k : String) (v : α) :
    mapKeys (m.map (fun p => if p.1 = k then (p.1, v) else p)) = mapKeys m := by
  unfold mapKeys
  rw [List.map_map]
  apply List.map_congr_left
  intro p _
  by_cases hp : p.1 = k <;> simp [hp]

theorem nodup_mapKeys_mapSet {m : List (String × α)} {k : String} {v : α}
    (h : (mapKeys m).Nodup) : (mapKeys (mapSet m k v)).Nodup := by
  unfold mapSet
  split
  · rwa [mapKeys_map_replace]
  · rename_i hs
    have hn : lookupKey m k = none := by
      rcases ho : lookupKey m k with _ | w
      · rfl
      · rw [ho] at hs; simp at hs
    have hk : k ∉ mapKeys m := (lookupKey_eq_none_iff m k).mp hn
    unfold mapKeys at h hk ⊢
    rw [List.map_append]
    simp only [List.map_cons, List.map_nil]
    rw [List.nodup_append]
    refine ⟨h, List.nodup_singleton k, ?_⟩
    intro a ha hmem
    have ha' : a = k := by simpa using hmem
    rw [ha'] at ha
    exact hk ha

theorem nodup_mapKeys_mapDelete {m : List (String × α)} (k : String)
    (h : (mapKeys m).Nodup) : (mapKeys (mapDelete m k)).Nodup := by
  have hsub : (mapKeys (mapDelete m k)).Sublist (mapKeys m) :=
    (List.filter_sublist m).map Prod.fst
  exact hsub.nodup h

/-! ### Lemmas about the case-conversion model -/

theorem toNat_ofNat_lt {n : Nat} (h : n < 55296) : (Char.ofNat n).toNat = n := by
  have hv : n.isValidChar := Or.inl h
  rw [Char.ofNat, dif_pos hv]
  rfl

theorem char_eq_of_toNat_eq {c d : Char} (h : c.toNat = d.toNat) : c = d :=
  Char.ext (UInt32.toNat.inj h)

theorem char_toNat_lt (c : Char) : c.toNat < 1114112 := by
  rcases c.valid with h | h
  · exact Nat.lt_trans h (by decide)
  · exact h.2

theorem asciiToLower_toNat (c : Char) :
    (asciiToLower c).toNat =
      if 65 ≤ c.toNat ∧ c.toNat ≤ 90 then c.toNat + 32 else c.toNat := by
  unfold asciiToLower
  split
  · rename_i h
    exact toNat_ofNat_lt (by omega)
  · rfl

theorem asciiToUpper_toNat (c : Char) :
    (asciiToUpper c).toNat =
      if 97 ≤ c.toNat ∧ c.toNat ≤ 122 then c.toNat - 32 else c.toNat := by
  unfold asciiToUpper
  split
  · rename_i h
    exact toNat_ofNat_lt (by omega)
  · rfl

theorem asciiToUpper_asciiToLower (c : Char) :
    asciiToUpper (asciiToLower c) = asciiToUpper c := by
  apply char_eq_of_toNat_eq
  rw [asciiToUpper_toNat, asciiToUpper_toNat, asciiToLower_toNat]
  split_ifs <;> omega

theorem asciiToLower_asciiToUpper (c : Char) :
    asciiToLower (asciiToUpper c) = asciiToLower c := by
  apply char_eq_of_toNat_eq
  rw [asciiToLower_toNat, asciiToLower_toNat, asciiToUpper_toNat]
  split_ifs <;> omega

theorem asciiToLower_asciiToLower (c : Char) :
    asciiToLower (asciiToLower c) = asciiToLower c := by
  apply char_eq_of_toNat_eq
  rw [asciiToLower_toNat, asciiToLower_toNat]
  split_ifs <;> omega

theorem jsToUpper_jsToLower (s : String) : jsToUpper (jsToLower s) = jsToUpper s := by
  unfold jsToUpper jsToLower
  apply congrArg String.mk
  show (s.data.map asciiToLower).map asciiToUpper = s.data.map asciiToUpper
  rw [List.map_map]
  apply List.map_congr_left
  intro c _
  exact asciiToUpper_asciiToLower c

theorem jsToLower_jsToUpper (s : String) : jsToLower (jsToUpper s) = jsToLower s := by
  unfold jsToUpper jsToLower
  apply congrArg String.mk
  show (s.data.map asciiToUpper).map asciiToLower = s.data.map asciiToLower
  rw [List.map_map]
  apply List.map_congr_left
  intro c _
  exact asciiToLower_asciiToUpper c

theorem jsToLower_idem (s : String) : jsToLower (jsToLower s) = jsToLower s := by
  unfold jsToLower
  apply congrArg String.mk
  show (s.data.map asciiToLower).map asciiToLower = s.data.map asciiToLower
  rw [List.map_map]
  apply List.map_congr_left
  intro c _
  exact asciiToLower_asciiToLower c

theorem jsToLower_eq_empty_iff {s : String} : jsToLower s = "" ↔ s = "" := by
  constructor
  · intro h
    have hd : s.data.map asciiToLower = [] := congrArg String.data h
    have hnil : s.data = [] := List.map_eq_nil_iff.mp hd
    cases s
    rw [show "" = String.mk [] from rfl]
    exact congrArg String.mk hnil
  · intro h
    rw [h]
    rfl

theorem jsToLower_unranked_iff {t : String} :
    jsToLower t = "unranked" ↔ jsToUpper t = "UNRANKED" := by
  constructor
  · intro h
    have h2 := congrArg jsToUpper h
    rw [jsToUpper_jsToLower] at h2
    rw [h2]
    decide
  · intro h
    have h2 := congrArg jsToLower h
    rw [jsToLower_jsToUpper] at h2
    rw [h2]
    decide

/-! ### Lemmas about the LRU cache -/

theorem lruGet_of_lookup_none {c : CacheMap} {u : String} (now : Nat)
    (h : lookupKey c (jsToLower u) = none) : lruGet c u now = (none, c) := by
  simp only [lruGet]
  rw [h]

theorem lruGet_hit {c : CacheMap} {u : String} {now : Nat} {e : CacheEntry}
    (h : lookupKey c (jsToLower u) = some e)
    (hfresh : now - e.timestamp ≤ entryDuration e) :
    lruGet c u now =
      (some e.data, mapDelete c (jsToLower u) ++ [(jsToLower u, e)]) := by
  simp only [lruGet]
  split
  · rename_i heq
    rw [h] at heq
    exact absurd heq (by simp)
  · rename_i entry heq
    rw [h] at heq
    injection heq with heq'
    subst heq'
    rw [if_neg (by omega)]
    unfold mapSet
    rw [lookupKey_mapDelete_self]
    simp

theorem lruGet_expired {c : CacheMap} {u : String} {now : Nat} {e : CacheEntry}
    (h : lookupKey c (jsToLower u) = some e)
    (hexp : now - e.timestamp > entryDuration e) :
    lruGet c u now = (none, mapDelete c (jsToLower u)) := by
  simp only [lruGet]
  split
  · rename_i heq
    rw [h] at heq
    exact absurd heq (by simp)
  · rename_i entry heq
    rw [h] at heq
    injection heq with heq'
    subst heq'
    rw [if_pos hexp]

theorem lruGet_miss_lookup {c : CacheMap} {u : String} {now : Nat}
    (h : (lruGet c u now).1 = none) :
    lookupKey (lruGet c u now).2 (jsToLower u) = none := by
  rcases ho : lookupKey c (jsToLower u) with _ | e
  · rw [lruGet_of_lookup_none now ho]
    exact ho
  · by_cases hexp : now - e.timestamp > entryDuration e
    · rw [lruGet_expired ho hexp]
      exact lookupKey_mapDelete_self c (jsToLower u)
    · rw [lruGet_hit ho (by omega)] at h
      simp at h

theorem lookupKey_lruSet_self (maxSize : Nat) (c : CacheMap) (u : String)
    (d : Option EloWardRankData) (now : Nat) :
    lookupKey (lruSet maxSize c u d now) (jsToLower u) = some ⟨d, now⟩ := by
  simp only [lruSet]
  exact lookupKey_mapSet_self _ _ _

theorem cacheInv_lruGet {m : Nat} {c : CacheMap} (u : String) (now : Nat)
    (h : cacheInv m c) : cacheInv m (lruGet c u now).2 := by
  rcases ho : lookupKey c (jsToLower u) with _ | e
  · rw [lruGet_of_lookup_none now ho]
    exact h
  · by_cases hexp : now - e.timestamp > entryDuration e
    · rw [lruGet_expired ho hexp]
      exact ⟨fun p hp => h.1 p (mem_mapDelete hp),
        Nat.le_trans (length_mapDelete_le c _) h.2⟩
    · rw [lruGet_hit ho (by omega)]
      have hkey : (jsToLower u, e) ∈ c := lookupKey_some_mem ho
      constructor
      · intro p hp
        rcases List.mem_append.mp hp with hp | hp
        · exact h.1 p (mem_mapDelete hp)
        · have : p = (jsToLower u, e) := by simpa using hp
          rw [this]
          exact h.1 _ hkey
      · have hlt : (mapDelete c (jsToLower u)).length < c.length :=
          length_mapDelete_lt (by rw [ho]; rfl)
        have hle := h.2
        simp only [List.length_append, List.length_cons, List.length_nil]
        omega

theorem cacheInv_lruSet {m : Nat} {c : CacheMap} {u : String}
    (d : Option EloWardRankData) (now : Nat) (hm : 1 ≤ m) (hu : u ≠ "")
    (h : cacheInv m c) : cacheInv m (lruSet m c u d now) := by
  have hkey : jsToLower u ≠ "" := fun hh => hu (jsToLower_eq_empty_iff.mp hh)
  simp only [lruSet]
  by_cases hpres : (lookupKey c (jsToLower u)).isSome
  · rw [if_neg (by simp [hpres])]
    unfold mapSet
    rw [if_pos hpres]
    constructor
    · intro p hp
      obtain ⟨q, hq, hpq⟩ := List.mem_map.mp hp
      have hfst : p.1 = q.1 := by
        by_cases hq1 : q.1 = jsToLower u
        · rw [if_pos hq1] at hpq
          rw [← hpq]
        · rw [if_neg hq1] at hpq
          rw [← hpq]
      rw [hfst]
      exact h.1 q hq
    · rw [List.length_map]
      exact h.2
  · by_cases hlen : c.length ≥ m
    · rw [if_pos ⟨hlen, hpres⟩]
      cases c with
      | nil => simp at hlen; omega
      | cons p₀ t =>
        have hp₀ : p₀.1 ≠ "" := h.1 p₀ (by simp)
        simp only [List.head?_cons, hp₀, ne_eq, not_false_iff, if_pos]
        have hp₀mem : (lookupKey (p₀ :: t) p₀.1).isSome := by
          simp [lookupKey]
        have hdel : (lookupKey (mapDelete (p₀ :: t) p₀.1) (jsToLower u)) = none := by
          have hn : lookupKey (p₀ :: t) (jsToLower u) = none := by
            rcases hx : lookupKey (p₀ :: t) (jsToLower u) with _ | w
            · rfl
            · rw [hx] at hpres; simp at hpres
          by_cases hne : jsToLower u = p₀.1
          · rw [hne]
            exact lookupKey_mapDelete_self _ _
          · rw [lookupKey_mapDelete_ne _ hne]
            exact hn
        unfold mapSet
        rw [hdel]
        simp only [Option.isSome_none, Bool.false_eq_true, if_false]
        constructor
        · intro p hp
          rcases List.mem_append.mp hp with hp | hp
          · exact h.1 p (mem_mapDelete hp)
          · have : p = (jsToLower u, ⟨d, now⟩) := by simpa using hp
            rw [this]
            exact hkey
        · have hlt : (mapDelete (p₀ :: t) p₀.1).length < (p₀ :: t).length :=
            length_mapDelete_lt hp₀mem
          simp only [List.length_append, List.length_cons, List.length_nil]
          have := h.2
          omega
    · rw [if_neg (by intro hc; exact hlen hc.1)]
      have hn : lookupKey c (jsToLower u) = none := by
        rcases hx : lookupKey c (jsToLower u) with _ | w
        · rfl
        · rw [hx] at hpres; simp at hpres
      unfold mapSet
      rw [hn]
      simp only [Option.isSome_none, Bool.false_eq_true, if_false]
      constructor
      · intro p hp
        rcases List.mem_append.mp hp with hp | hp
        · exact h.1 p hp
        · have : p = (jsToLower u, ⟨d, now⟩) := by simpa using hp
          rw [this]
          exact hkey
      · simp only [List.length_append, List.length_cons, List.length_nil]
        omega

theorem cacheInv_runOps_from {m : Nat} (hm : 1 ≤ m) :
    ∀ (ops : List CacheOp) (c : CacheMap), cacheInv m c →
      (∀ u d n, CacheOp.set u d n ∈ ops → u ≠ "") →
      cacheInv m (ops.foldl (applyOp m) c) := by
  intro ops
  induction ops with
  | nil => intro c hc _; exact hc
  | cons op rest ih =>
    intro c hc hset
    rw [List.foldl_cons]
    apply ih
    · cases op with
      | get u now => exact cacheInv_lruGet u now hc
      | set u dd now =>
        exact cacheInv_lruSet dd now hm (hset u dd now (by simp)) hc
      | clear => exact ⟨fun p hp => absurd hp (List.not_mem_nil p), Nat.zero_le m⟩
    · intro u dd n hmem
      exact hset u dd n (by simp [hmem])

/-! ### Lemmas about the fetch coordinator -/

theorem fetchSync_pending_cases (enabled : Bool) (u : String) (now : Nat)
    (st : Wstate) :
    (fetchSync enabled u now st).1.pending = st.pending ∨
      (lookupKey st.pending (jsToLower u) = none ∧
        (fetchSync enabled u now st).1.pending =
          mapSet st.pending (jsToLower u) st.nextReq) := by
  simp only [fetchSync]
  split
  · left; rfl
  · split
    · left; rfl
    · split
      · left; rfl
      · rename_i hp
        exact Or.inr ⟨hp, rfl⟩

theorem gof_pending_cases (enabled : Bool) (u : String) (now : Nat)
    (st : Wstate) :
    (getOrFetchBadge enabled u now st).pending = st.pending ∨
      (lookupKey st.pending (jsToLower u) = none ∧
        (getOrFetchBadge enabled u now st).pending =
          mapSet st.pending (jsToLower u) st.nextReq) := by
  simp only [getOrFetchBadge]
  split
  · left; rfl
  · have hcases := fetchSync_pending_cases enabled u now
      { st with cache := (lruGet st.cache (jsToLower u) now).2 }
    split
    · left; rfl
    · split
      · left; rfl
      · split
        · rcases hcases with hc | ⟨hn, hc⟩
          · exact Or.inl hc
          · exact Or.inr ⟨hn, hc⟩
        · rcases hcases with hc | ⟨hn, hc⟩
          · exact Or.inl hc
          · exact Or.inr ⟨hn, hc⟩
        · rcases hcases with hc | ⟨hn, hc⟩
          · exact Or.inl hc
          · exact Or.inr ⟨hn, hc⟩

theorem settleStep_pending (st : Wstate) (key : String) (rid : Nat)
    (outcome : FetchOutcome) (now : Nat) :
    (settleStep st key rid outcome now).1.pending = mapDelete st.pending key := rfl

theorem registryNodup_stepAct {st : Wstate} (h : registryNodup st) (a : Act) :
    registryNodup (stepAct st a) := by
  cases a with
  | call enabled u now =>
    rcases fetchSync_pending_cases enabled u now st with hc | ⟨_, hc⟩
    · unfold registryNodup stepAct
      rw [hc]
      exact h
    · unfold registryNodup stepAct
      rw [hc]
      exact nodup_mapKeys_mapSet h
  | gof enabled u now =>
    rcases gof_pending_cases enabled u now st with hc | ⟨_, hc⟩
    · unfold registryNodup stepAct
      rw [hc]
      exact h
    · unfold registryNodup stepAct
      rw [hc]
      exact nodup_mapKeys_mapSet h
  | settle key rid outcome now =>
    unfold registryNodup stepAct
    rw [settleStep_pending]
    exact nodup_mapKeys_mapDelete key h

theorem registryNodup_foldl :
    ∀ (acts : List Act) (st : Wstate), registryNodup st →
      registryNodup (acts.foldl stepAct st) := by
  intro acts
  induction acts with
  | nil => intro st h; exact h
  | cons a rest ih =>
    intro st h
    rw [List.foldl_cons]
    exact ih _ (registryNodup_stepAct h a)

theorem fetchSync_uncached_unpending {u : String} {now : Nat} {st : Wstate}
    (hu : u ≠ "") (hc : (lruGet st.cache (jsToLower u) now).1 = none)
    (hp : lookupKey st.pending (jsToLower u) = none) :
    fetchSync true u now st =
      ({ st with
          cache := (lruGet st.cache (jsToLower u) now).2
          isLoading := true
          netCalls := st.netCalls + 1
          pending := mapSet st.pending (jsToLower u) st.nextReq
          nextReq := st.nextReq + 1 },
        CallRes.startFetch st.nextReq) := by
  simp only [fetchSync]
  rw [if_neg (by simp [hu])]
  split
  · rename_i v heq
    rw [hc] at heq
    exact absurd heq (by simp)
  · split
    · rename_i rid heq
      rw [hp] at heq
      exact absurd heq (by simp)
    · rfl

theorem fetchSync_attach {u : String} {now : Nat} {st : Wstate} {rid : Nat}
    (hu : u ≠ "") (hc : (lruGet st.cache (jsToLower u) now).1 = none)
    (hp : lookupKey st.pending (jsToLower u) = some rid) :
    fetchSync true u now st =
      ({ st with cache := (lruGet st.cache (jsToLower u) now).2 },
        CallRes.attach rid) := by
  simp only [fetchSync]
  rw [if_neg (by simp [hu])]
  split
  · rename_i v heq
    rw [hc] at heq
    exact absurd heq (by simp)
  · split
    · rename_i rid' heq
      rw [hp] at heq
      injection heq with heq'
      subst heq'
      rfl
    · rename_i heq
      rw [hp] at heq
      exact absurd heq (by simp)

theorem fetchSync_cached {u : String} {now : Nat} {st : Wstate}
    {v : Option EloWardRankData} (hu : u ≠ "")
    (hc : (lruGet st.cache (jsToLower u) now).1 = some v) :
    fetchSync true u now st =
      ({ st with cache := (lruGet st.cache (jsToLower u) now).2 },
        CallRes.value v) := by
  simp only [fetchSync]
  rw [if_neg (by simp [hu])]
  split
  · rename_i v' heq
    rw [hc] at heq
    injection heq with heq'
    subst heq'
    rfl
  · rename_i heq
    rw [hc] at heq
    exact absurd heq (by simp)

/-! ### Lemmas about response classification -/

theorem settleBody_404 (c : CacheMap) (key : String) (body? : Option ApiBody)
    (now : Nat) :
    settleBody c key (.response 404 body?) now =
      (lruSet MAX_CACHE_SIZE c key none now, none) := rfl

theorem settleBody_exception (c : CacheMap) (key : String) (now : Nat) :
    settleBody c key .exception now = (c, none) := rfl

theorem settleBody_softError {status : Nat} (c : CacheMap) (key : String)
    (body? : Option ApiBody) (now : Nat) (hs : status ≠ 404)
    (hok : ¬(200 ≤ status ∧ status ≤ 299)) :
    settleBody c key (.response status body?) now = (c, none) := by
  simp only [settleBody]
  rw [if_neg hs, if_pos hok]

theorem settleBody_parseError {status : Nat} (c : CacheMap) (key : String)
    (now : Nat) (h200 : 200 ≤ status) (h299 : status ≤ 299) :
    settleBody c key (.response status none) now = (c, none) := by
  simp only [settleBody]
  rw [if_neg (by omega), if_neg (not_not_intro ⟨h200, h299⟩)]

theorem settleBody_invalidTier {status : Nat} {data : ApiBody} (c : CacheMap)
    (key : String) (now : Nat) (h200 : 200 ≤ status) (h299 : status ≤ 299)
    (hbad : data.rank_tier = none ∨
      ∃ t, data.rank_tier = some t ∧ ¬(RANK_TIERS.contains (jsToLower t))) :
    settleBody c key (.response status (some data)) now =
      (lruSet MAX_CACHE_SIZE c key none now, none) := by
  simp only [settleBody]
  rw [if_neg (by omega), if_neg (not_not_intro ⟨h200, h299⟩)]
  rcases hbad with hb | ⟨t, ht, hb⟩
  · rw [hb]
  · rw [ht]
    split
    · rename_i heq
      exact absurd heq (by simp)
    · rename_i t' heq
      injection heq with heq'
      subst heq'
      rw [if_pos (Or.inr hb)]

theorem settleBody_valid {status : Nat} {data : ApiBody} {t : String}
    (c : CacheMap) (key : String) (now : Nat) (h200 : 200 ≤ status)
    (h299 : status ≤ 299) (ht : data.rank_tier = some t)
    (hgood : RANK_TIERS.contains (jsToLower t)) :
    settleBody c key (.response status (some data)) now =
      (lruSet MAX_CACHE_SIZE c key
        (some
          { tier := t
            division := data.rank_division
            leaguePoints := data.lp
            summonerName := data.riot_id
            region := data.region
            animate_badge := data.animate_badge }) now,
        some
          { tier := t
            division := data.rank_division
            leaguePoints := data.lp
            summonerName := data.riot_id
            region := data.region
            animate_badge := data.animate_badge }) := by
  have hne : t ≠ "" := by
    intro hcon
    rw [hcon] at hgood
    exact absurd hgood (by decide)
  simp only [settleBody]
  rw [if_neg (by omega), if_neg (not_not_intro ⟨h200, h299⟩), ht]
  split
  · rename_i heq
    exact absurd heq (by simp)
  · rename_i t' heq
    injection heq with heq'
    subst heq'
    have hcond : ¬(t = "" ∨ ¬RANK_TIERS.contains (jsToLower t) = true) := by
      intro hcon
      rcases hcon with hcon | hcon
      · exact hne hcon
      · exact hcon hgood
    rw [if_neg hcond]

/-! ### Claim theorems -/

/-- C4: a positive cache entry inserted at time ts is a Hit strictly before
ts + positiveTTL (60 minutes) and a Miss strictly after, a negative entry
the same with the shorter negativeTTL (15 minutes), and the get that
observes the expiry deletes the expired entry from the cache. -/
theorem claim4_cache_ttl_asymmetry :
    ∀ (c : CacheMap) (u : String) (d : EloWardRankData) (ts now : Nat),
      (lookupKey c (jsToLower u) = some ⟨some d, ts⟩ →
        (now < ts + DEFAULT_CACHE_DURATION → (lruGet c u now).1 = some (some d)) ∧
        (now > ts + DEFAULT_CACHE_DURATION →
          lruGet c u now = (none, mapDelete c (jsToLower u)) ∧
          lookupKey (lruGet c u now).2 (jsToLower u) = none)) ∧
      (lookupKey c (jsToLower u) = some ⟨none, ts⟩ →
        (now < ts + NEGATIVE_CACHE_DURATION → (lruGet c u now).1 = some none) ∧
        (now > ts + NEGATIVE_CACHE_DURATION →
          lruGet c u now = (none, mapDelete c (jsToLower u)) ∧
          lookupKey (lruGet c u now).2 (jsToLower u) = none)) := by
  intro c u d ts now
  constructor
  · intro h
    constructor
    · intro hlt
      have hh := lruGet_hit h (by show now - ts ≤ DEFAULT_CACHE_DURATION; omega)
      rw [hh]
    · intro hgt
      have hh := lruGet_expired h (by show now - ts > DEFAULT_CACHE_DURATION; omega)
      refine ⟨hh, ?_⟩
      rw [hh]
      exact lookupKey_mapDelete_self c (jsToLower u)
  · intro h
    constructor
    · intro hlt
      have hh := lruGet_hit h (by show now - ts ≤ NEGATIVE_CACHE_DURATION; omega)
      rw [hh]
    · intro hgt
      have hh := lruGet_expired h (by show now - ts > NEGATIVE_CACHE_DURATION; omega)
      refine ⟨hh, ?_⟩
      rw [hh]
      exact lookupKey_mapDelete_self c (jsToLower u)

theorem claim4_witness :
    lookupKey [("bob", (⟨some { tier := "gold" }, 100⟩ : CacheEntry))]
        (jsToLower "Bob") = some ⟨some { tier := "gold" }, 100⟩ ∧
      (lruGet [("bob", (⟨some { tier := "gold" }, 100⟩ : CacheEntry))] "Bob"
          (100 + DEFAULT_CACHE_DURATION - 1)).1 = some (some { tier := "gold" }) ∧
      (lruGet [("bob", (⟨some { tier := "gold" }, 100⟩ : CacheEntry))] "Bob"
          (101 + DEFAULT_CACHE_DURATION)).1 = none := by
  have h := claim4_cache_ttl_asymmetry
    [("bob", (⟨some { tier := "gold" }, 100⟩ : CacheEntry))] "Bob"
    { tier := "gold" } 100
  refine ⟨by decide, ?_, ?_⟩
  · exact ((h (100 + DEFAULT_CACHE_DURATION - 1)).1 (by decide)).1 (by decide)
  · rw [(((h (101 + DEFAULT_CACHE_DURATION)).1 (by decide)).2 (by decide)).1]

/-- C9: a get performed when the age of the entry is exactly its TTL
(now - insertedAt = TTL) still returns a Hit: expiry requires the age to
be strictly greater than the duration. -/
theorem claim9_ttl_boundary_inclusive :
    ∀ (c : CacheMap) (u : String) (e : CacheEntry),
      lookupKey c (jsToLower u) = some e →
      (lruGet c u (e.timestamp + entryDuration e)).1 = some e.data := by
  intro c u e h
  rw [lruGet_hit h (by omega)]

theorem claim9_witness :
    lookupKey [("bob", (⟨none, 100⟩ : CacheEntry))] (jsToLower "Bob") =
        some ⟨none, 100⟩ ∧
      (lruGet [("bob", (⟨none, 100⟩ : CacheEntry))] "Bob"
          (100 + NEGATIVE_CACHE_DURATION)).1 = some none :=
  ⟨by decide,
    claim9_ttl_boundary_inclusive [("bob", ⟨none, 100⟩)] "Bob" ⟨none, 100⟩
      (by decide)⟩

/-- C5: for a 2xx response, a missing rank_tier or one whose lowercased
value is outside the tier enumeration is confirmed-negative (negative
entry cached and null returned); otherwise the RankRecord is built from
the body, cached positively, and returned. -/
theorem claim5_success_body_validation :
    ∀ (c : CacheMap) (key : String) (status : Nat) (data : ApiBody) (now : Nat),
      200 ≤ status → status ≤ 299 →
      ((data.rank_tier = none ∨
          ∃ t, data.rank_tier = some t ∧ ¬(RANK_TIERS.contains (jsToLower t))) →
        settleBody c key (.response status (some data)) now =
          (lruSet MAX_CACHE_SIZE c key none now, none) ∧
        lookupKey (settleBody c key (.response status (some data)) now).1
          (jsToLower key) = some ⟨none, now⟩) ∧
      (∀ t, data.rank_tier = some t → RANK_TIERS.contains (jsToLower t) →
        settleBody c key (.response status (some data)) now =
          (lruSet MAX_CACHE_SIZE c key
            (some
              { tier := t, division := data.rank_division,
                leaguePoints := data.lp, summonerName := data.riot_id,
                region := data.region, animate_badge := data.animate_badge }) now,
            some
              { tier := t, division := data.rank_division,
                leaguePoints := data.lp, summonerName := data.riot_id,
                region := data.region, animate_badge := data.animate_badge }) ∧
        lookupKey (settleBody c key (.response status (some data)) now).1
          (jsToLower key) =
          some ⟨some
            { tier := t, division := data.rank_division,
              leaguePoints := data.lp, summonerName := data.riot_id,
              region := data.region, animate_badge := data.animate_badge }, now⟩) := by
  intro c key status data now h200 h299
  constructor
  · intro hbad
    have hh := settleBody_invalidTier c key now h200 h299 hbad
    refine ⟨hh, ?_⟩
    rw [hh]
    exact lookupKey_lruSet_self _ _ _ _ _
  · intro t ht hgood
    have hh := settleBody_valid c key now h200 h299 ht hgood
    refine ⟨hh, ?_⟩
    rw [hh]
    exact lookupKey_lruSet_self _ _ _ _ _

theorem claim5_witness :
    (200 ≤ 200 ∧ 200 ≤ 299) ∧
      settleBody [] "alice"
          (.response 200 (some { rank_tier := some "wood" })) 7 =
        (lruSet MAX_CACHE_SIZE [] "alice" none 7, none) ∧
      settleBody [] "alice"
          (.response 200 (some { rank_tier := some "Gold", lp := some 45 })) 7 =
        (lruSet MAX_CACHE_SIZE [] "alice"
          (some { tier := "Gold", leaguePoints := some 45 }) 7,
          some { tier := "Gold", leaguePoints := some 45 }) := by
  refine ⟨by decide, ?_, ?_⟩
  · exact ((claim5_success_body_validation [] "alice" 200
      { rank_tier := some "wood" } 7 (by decide) (by decide)).1
      (Or.inr ⟨"wood", rfl, by decide⟩)).1
  · exact ((claim5_success_body_validation [] "alice" 200
      { rank_tier := some "Gold", lp := some 45 } 7 (by decide) (by decide)).2
      "Gold" rfl (by decide)).1

theorem getRankBadge_unranked (rdd : EloWardRankData)
    (hlow : jsToLower rdd.tier = "unranked")
    (hdiv : rdd.division = none) (hanim : rdd.animate_badge = none) :
    getRankBadge rdd = some
      { id := "eloward-unranked", tier := "UNRANKED", division := none,
        imageUrl := "https://eloward-cdn.unleashai.workers.dev/lol/unranked.png?v=3",
        animated := false, summonerName := rdd.summonerName,
        region := rdd.region, leaguePoints := rdd.leaguePoints } := by
  have hne : rdd.tier ≠ "" := by
    intro hcon
    rw [hcon] at hlow
    exact absurd hlow (by decide)
  have hupper : jsToUpper rdd.tier = "UNRANKED" := jsToLower_unranked_iff.mp hlow
  simp only [getRankBadge]
  rw [if_neg hne, hlow, hdiv, hanim, hupper]
  rw [if_neg (by decide)]
  simp only [Option.some.injEq, EloWardBadge.mk.injEq]
  exact ⟨by decide, trivial, trivial, by decide, rfl, trivial, trivial, trivial⟩

/-- C10: a 2xx body whose rank_tier is unranked in any letter case is a
valid positive result, not confirmed-negative: it is cached positively
(still a Hit at the full positive TTL, beyond the negative TTL), and the
badge projector returns a badge with id eloward-unranked, tier label
UNRANKED and the unranked image URL rather than absent. -/
theorem claim10_unranked_positive :
    ∀ (c : CacheMap) (key t : String) (data : ApiBody) (status now now₂ : Nat),
      200 ≤ status → status ≤ 299 →
      data.rank_tier = some t → jsToLower t = "unranked" →
      data.rank_division = none → data.animate_badge = none →
      settleBody c key (.response status (some data)) now =
        (lruSet MAX_CACHE_SIZE c key
          (some
            { tier := t, division := none, leaguePoints := data.lp,
              summonerName := data.riot_id, region := data.region,
              animate_badge := none }) now,
          some
            { tier := t, division := none, leaguePoints := data.lp,
              summonerName := data.riot_id, region := data.region,
              animate_badge := none }) ∧
      (now₂ - now ≤ DEFAULT_CACHE_DURATION →
        (lruGet (settleBody c key (.response status (some data)) now).1
            (jsToLower key) now₂).1 =
          some (some
            { tier := t, division := none, leaguePoints := data.lp,
              summonerName := data.riot_id, region := data.region,
              animate_badge := none })) ∧
      getRankBadge
          { tier := t, division := none, leaguePoints := data.lp,
            summonerName := data.riot_id, region := data.region,
            animate_badge := none } =
        some
          { id := "eloward-unranked", tier := "UNRANKED", division := none,
            imageUrl := "https://eloward-cdn.unleashai.workers.dev/lol/unranked.png?v=3",
            animated := false, summonerName := data.riot_id,
            region := data.region, leaguePoints := data.lp } := by
  intro c key t data status now now₂ h200 h299 ht hlow hdiv hanim
  have hgood : RANK_TIERS.contains (jsToLower t) := by
    rw [hlow]
    decide
  have hset := settleBody_valid c key now h200 h299 ht hgood
  rw [hdiv, hanim] at hset
  refine ⟨hset, ?_, ?_⟩
  · intro hfresh
    rw [hset]
    have hl : lookupKey
        (lruSet MAX_CACHE_SIZE c key
          (some
            { tier := t, division := none, leaguePoints := data.lp,
              summonerName := data.riot_id, region := data.region,
              animate_badge := none }) now)
        (jsToLower (jsToLower key)) =
        some ⟨some
          { tier := t, division := none, leaguePoints := data.lp,
            summonerName := data.riot_id, region := data.region,
            animate_badge := none }, now⟩ := by
      rw [jsToLower_idem]
      exact lookupKey_lruSet_self _ _ _ _ _
    rw [lruGet_hit hl (by show now₂ - now ≤ DEFAULT_CACHE_DURATION; omega)]
  · exact getRankBadge_unranked _ hlow rfl rfl

theorem claim10_witness :
    (200 ≤ 200 ∧ 200 ≤ 299 ∧ jsToLower "UnRanked" = "unranked") ∧
      settleBody [] "alice"
          (.response 200 (some { rank_tier := some "UnRanked" })) 7 =
        (lruSet MAX_CACHE_SIZE [] "alice" (some { tier := "UnRanked" }) 7,
          some { tier := "UnRanked" }) ∧
      (lruGet (settleBody [] "alice"
            (.response 200 (some { rank_tier := some "UnRanked" })) 7).1
          (jsToLower "alice") (7 + DEFAULT_CACHE_DURATION)).1 =
        some (some { tier := "UnRanked" }) ∧
      getRankBadge { tier := "UnRanked" } =
        some
          { id := "eloward-unranked", tier := "UNRANKED", division := none,
            imageUrl := "https://eloward-cdn.unleashai.workers.dev/lol/unranked.png?v=3",
            animated := false, summonerName := none, region := none,
            leaguePoints := none } := by
  have h := claim10_unranked_positive [] "alice" "UnRanked"
    { rank_tier := some "UnRanked" } 200 7 (7 + DEFAULT_CACHE_DURATION)
    (by decide) (by decide) rfl (by decide) rfl rfl
  exact ⟨by decide, h.1, h.2.1 (by omega), h.2.2⟩

/-- C1: concurrent resolution is de-duplicated.  In every trace of call,
badge and settle events the pending registry holds at most one entry per
normalized key; a settling request removes its registry entry on every
outcome (success, 404, error status, exception - timeouts settle as
exceptions); and when a resolve call finds the key uncached and not
pending it issues exactly one outbound call and registers the request,
while a second resolve for the same normalized username issued while that
lookup is in flight changes nothing and attaches to the same request id -
so both callers await the identical promise and resolve to equal
results. -/
theorem claim1_dedup_and_registry :
    (∀ acts : List Act, (mapKeys (runTrace acts).pending).Nodup) ∧
    (∀ (st : Wstate) (key : String) (rid : Nat) (outcome : FetchOutcome)
      (now : Nat),
      (settleStep st key rid outcome now).1.pending = mapDelete st.pending key ∧
      lookupKey (settleStep st key rid outcome now).1.pending key = none) ∧
    (∀ (st : Wstate) (u : String) (now₁ now₂ : Nat),
      u ≠ "" →
      (lruGet st.cache (jsToLower u) now₁).1 = none →
      lookupKey st.pending (jsToLower u) = none →
      (fetchSync true u now₁ st).2 = CallRes.startFetch st.nextReq ∧
      (fetchSync true u now₁ st).1.netCalls = st.netCalls + 1 ∧
      lookupKey (fetchSync true u now₁ st).1.pending (jsToLower u) =
        some st.nextReq ∧
      fetchSync true u now₂ (fetchSync true u now₁ st).1 =
        ((fetchSync true u now₁ st).1, CallRes.attach st.nextReq)) := by
  refine ⟨?_, ?_, ?_⟩
  · intro acts
    exact registryNodup_foldl acts initState List.nodup_nil
  · intro st key rid outcome now
    refine ⟨rfl, ?_⟩
    rw [settleStep_pending]
    exact lookupKey_mapDelete_self st.pending key
  · intro st u now₁ now₂ hu hc hp
    have h1 := fetchSync_uncached_unpending hu hc hp
    refine ⟨by rw [h1], by rw [h1], ?_, ?_⟩
    · rw [h1]
      exact lookupKey_mapSet_self st.pending (jsToLower u) st.nextReq
    · rw [h1]
      have hcach : lookupKey (lruGet st.cache (jsToLower u) now₁).2
          (jsToLower u) = none := by
        have hm := @lruGet_miss_lookup st.cache (jsToLower u) now₁ hc
        rwa [jsToLower_idem] at hm
      have hg : lruGet (lruGet st.cache (jsToLower u) now₁).2
          (jsToLower u) now₂ = (none, (lruGet st.cache (jsToLower u) now₁).2) :=
        lruGet_of_lookup_none now₂ (by rwa [jsToLower_idem])
      have h2 := @fetchSync_attach u now₂
        { st with
            cache := (lruGet st.cache (jsToLower u) now₁).2
            isLoading := true
            netCalls := st.netCalls + 1
            pending := mapSet st.pending (jsToLower u) st.nextReq
            nextReq := st.nextReq + 1 } st.nextReq hu (by rw [hg])
        (lookupKey_mapSet_self st.pending (jsToLower u) st.nextReq)
      rw [h2, hg]

theorem claim1_witness :
    ("Alice" ≠ "" ∧
      (lruGet initState.cache (jsToLower "Alice") 0).1 = none ∧
      lookupKey initState.pending (jsToLower "Alice") = none) ∧
    (fetchSync true "Alice" 0 initState).2 = CallRes.startFetch 0 ∧
      (fetchSync true "Alice" 0 initState).1.netCalls = 1 ∧
      fetchSync true "Alice" 1 (fetchSync true "Alice" 0 initState).1 =
        ((fetchSync true "Alice" 0 initState).1, CallRes.attach 0) := by
  have h := claim1_dedup_and_registry.2.2 initState "Alice" 0 1 (by decide)
    (by decide) (by decide)
  exact ⟨⟨by decide, by decide, by decide⟩, h.1, h.2.1, h.2.2.2⟩

/-- C2: a 404 writes a negative cache entry, so a second resolve for the
same key within the negative TTL is served from the cache with no new
network call; any other non-success status or a thrown exception (network
error, abort, timeout) writes nothing, so a second resolve starts a new
network call; in every case the caller receives null. -/
theorem claim2_notfound_vs_soft_failure :
    ∀ (st : Wstate) (u : String) (rid : Nat) (body? : Option ApiBody)
      (now now₂ : Nat),
      u ≠ "" →
      ((settleStep st (jsToLower u) rid (.response 404 body?) now).2 = none ∧
        lookupKey
          (settleStep st (jsToLower u) rid (.response 404 body?) now).1.cache
          (jsToLower u) = some ⟨none, now⟩ ∧
        (now₂ - now ≤ NEGATIVE_CACHE_DURATION →
          (fetchSync true u now₂
              (settleStep st (jsToLower u) rid (.response 404 body?) now).1).2 =
            CallRes.value none ∧
          (fetchSync true u now₂
              (settleStep st (jsToLower u) rid
                (.response 404 body?) now).1).1.netCalls = st.netCalls)) ∧
      (∀ status : Nat, status ≠ 404 → ¬(200 ≤ status ∧ status ≤ 299) →
        (settleStep st (jsToLower u) rid (.response status body?) now).1.cache =
          st.cache ∧
        (settleStep st (jsToLower u) rid (.response status body?) now).2 = none ∧
        (lookupKey st.cache (jsToLower u) = none →
          (fetchSync true u now₂
              (settleStep st (jsToLower u) rid
                (.response status body?) now).1).2 =
            CallRes.startFetch st.nextReq ∧
          (fetchSync true u now₂
              (settleStep st (jsToLower u) rid
                (.response status body?) now).1).1.netCalls =
            st.netCalls + 1)) ∧
      ((settleStep st (jsToLower u) rid .exception now).1.cache = st.cache ∧
        (settleStep st (jsToLower u) rid .exception now).2 = none ∧
        (lookupKey st.cache (jsToLower u) = none →
          (fetchSync true u now₂
              (settleStep st (jsToLower u) rid .exception now).1).2 =
            CallRes.startFetch st.nextReq ∧
          (fetchSync true u now₂
              (settleStep st (jsToLower u) rid .exception now).1).1.netCalls =
            st.netCalls + 1)) := by
  intro st u rid body? now now₂ hu
  refine ⟨?_, ?_, ?_⟩
  · have hcache :
        (settleStep st (jsToLower u) rid (.response 404 body?) now).1.cache =
          lruSet MAX_CACHE_SIZE st.cache (jsToLower u) none now := by
      show (settleBody st.cache (jsToLower u) (.response 404 body?) now).1 = _
      rw [settleBody_404]
    have hlook : lookupKey
        (settleStep st (jsToLower u) rid (.response 404 body?) now).1.cache
        (jsToLower u) = some ⟨none, now⟩ := by
      rw [hcache]
      have := lookupKey_lruSet_self MAX_CACHE_SIZE st.cache (jsToLower u) none now
      rwa [jsToLower_idem] at this
    refine ⟨rfl, hlook, ?_⟩
    intro hfresh
    have hhit : (lruGet
        (settleStep st (jsToLower u) rid (.response 404 body?) now).1.cache
        (jsToLower u) now₂).1 = some none := by
      have hl : lookupKey
          (settleStep st (jsToLower u) rid (.response 404 body?) now).1.cache
          (jsToLower (jsToLower u)) = some ⟨none, now⟩ := by
        rwa [jsToLower_idem]
      rw [lruGet_hit hl (by show now₂ - now ≤ NEGATIVE_CACHE_DURATION; omega)]
    have h2 := @fetchSync_cached u now₂
      (settleStep st (jsToLower u) rid (.response 404 body?) now).1 none hu hhit
    rw [h2]
    exact ⟨rfl, rfl⟩
  · intro status hs hok
    have hcache :
        (settleStep st (jsToLower u) rid (.response status body?) now).1.cache =
          st.cache := by
      show (settleBody st.cache (jsToLower u) (.response status body?) now).1 = _
      rw [settleBody_softError st.cache (jsToLower u) body? now hs hok]
    refine ⟨hcache, ?_, ?_⟩
    · show (settleBody st.cache (jsToLower u) (.response status body?) now).2 = none
      rw [settleBody_softError st.cache (jsToLower u) body? now hs hok]
    · intro hnone
      have hmiss : (lruGet
          (settleStep st (jsToLower u) rid (.response status body?) now).1.cache
          (jsToLower u) now₂).1 = none := by
        rw [lruGet_of_lookup_none now₂ (by rw [jsToLower_idem, hcache]; exact hnone)]
      have hpend : lookupKey
          (settleStep st (jsToLower u) rid (.response status body?) now).1.pending
          (jsToLower u) = none := by
        rw [settleStep_pending]
        exact lookupKey_mapDelete_self st.pending (jsToLower u)
      have h2 := @fetchSync_uncached_unpending u now₂
        (settleStep st (jsToLower u) rid (.response status body?) now).1
        hu hmiss hpend
      rw [h2]
      exact ⟨rfl, rfl⟩
  · have hcache :
        (settleStep st (jsToLower u) rid .exception now).1.cache = st.cache := rfl
    refine ⟨hcache, rfl, ?_⟩
    intro hnone
    have hmiss : (lruGet
        (settleStep st (jsToLower u) rid .exception now).1.cache
        (jsToLower u) now₂).1 = none := by
      rw [lruGet_of_lookup_none now₂ (by rw [jsToLower_idem, hcache]; exact hnone)]
    have hpend : lookupKey
        (settleStep st (jsToLower u) rid .exception now).1.pending
        (jsToLower u) = none := by
      rw [settleStep_pending]
      exact lookupKey_mapDelete_self st.pending (jsToLower u)
    have h2 := @fetchSync_uncached_unpending u now₂
      (settleStep st (jsToLower u) rid .exception now).1 hu hmiss hpend
    rw [h2]
    exact ⟨rfl, rfl⟩

theorem claim2_witness :
    ("Alice" ≠ "" ∧ (500 : Nat) ≠ 404 ∧ ¬(200 ≤ 500 ∧ 500 ≤ 299)) ∧
      lookupKey
        (settleStep initState (jsToLower "Alice") 0 (.response 404 none) 5).1.cache
        (jsToLower "Alice") = some ⟨none, 5⟩ ∧
      (fetchSync true "Alice" 6
          (settleStep initState (jsToLower "Alice") 0 (.response 404 none) 5).1).2 =
        CallRes.value none ∧
      (settleStep initState (jsToLower "Alice") 0 (.response 500 none) 5).1.cache =
        initState.cache ∧
      (fetchSync true "Alice" 6
          (settleStep initState (jsToLower "Alice") 0 (.response 500 none) 5).1).2 =
        CallRes.startFetch 0 := by
  have h := claim2_notfound_vs_soft_failure initState "Alice" 0 none 5 6
    (by decide)
  refine ⟨⟨by decide, by decide, by decide⟩, h.1.2.1, (h.1.2.2 (by decide)).1,
    ?_, ?_⟩
  · exact (h.2.1 500 (by decide) (by decide)).1
  · exact ((h.2.1 500 (by decide) (by decide)).2.2 (by decide)).1

theorem mapDelete_cons_self (k : String) (e : α) (t : List (String × α)) :
    mapDelete ((k, e) :: t) k = mapDelete t k := by
  simp [mapDelete, List.filter]

/-- C3 counterexample: the capacity bound fails once the empty string is a
key.  The eviction in LRUCache.set is guarded by a truthiness test on the
first key (`if (firstKey)`), so when the oldest key is the empty string
the eviction is skipped: with capacity 2, inserting the keys "", "a" and
"b" leaves 3 entries in the cache. -/
theorem claim3_counterexample :
    (runOps 2 [.set "" none 0, .set "a" none 1, .set "b" none 2]).length = 3 ∧
      ¬((runOps 2 [.set "" none 0, .set "a" none 1, .set "b" none 2]).length ≤ 2) := by
  decide

/-- C3 (amended): provided every set key is nonempty and the capacity is
at least 1, the entry count never exceeds the capacity; inserting a new
key at capacity removes exactly the entry at the front of the recency
order (the least-recently-touched one) and appends the new key at the
most-recently-used end, every other key staying retrievable; and a get
hit re-inserts its entry at the most-recently-used end, so the front of
the map is the least-recently-touched entry (ordered by set activity and
promoting get hits).  The unamended claim fails only for the empty-string
key, whose eviction the source skips. -/
theorem claim3_lru_bound_and_eviction :
    (∀ (m : Nat) (ops : List CacheOp), 1 ≤ m →
      (∀ u d n, CacheOp.set u d n ∈ ops → u ≠ "") →
      (runOps m ops).length ≤ m) ∧
    (∀ (m : Nat) (fk : String) (e : CacheEntry) (t : CacheMap) (u : String)
      (d : Option EloWardRankData) (now : Nat),
      fk ≠ "" → fk ∉ mapKeys t → ((fk, e) :: t).length ≥ m →
      lookupKey ((fk, e) :: t) (jsToLower u) = none →
      lruSet m ((fk, e) :: t) u d now = t ++ [(jsToLower u, ⟨d, now⟩)] ∧
      lookupKey (lruSet m ((fk, e) :: t) u d now) fk = none ∧
      (∀ (k : String) (v : CacheEntry), k ≠ fk →
        lookupKey ((fk, e) :: t) k = some v →
        lookupKey (lruSet m ((fk, e) :: t) u d now) k = some v)) ∧
    (∀ (c : CacheMap) (u : String) (now : Nat) (e : CacheEntry),
      lookupKey c (jsToLower u) = some e →
      now - e.timestamp ≤ entryDuration e →
      lruGet c u now =
        (some e.data, mapDelete c (jsToLower u) ++ [(jsToLower u, e)])) := by
  refine ⟨?_, ?_, ?_⟩
  · intro m ops hm hset
    exact (cacheInv_runOps_from hm ops []
      ⟨fun p hp => absurd hp (List.not_mem_nil p), Nat.zero_le m⟩ hset).2
  · intro m fk e t u d now hfk hnd hlen hu
    have ht : ∀ p ∈ t, p.1 ≠ fk := by
      intro p hp hc
      exact hnd (by rw [← hc]; exact List.mem_map_of_mem Prod.fst hp)
    have hdel : mapDelete ((fk, e) :: t) fk = t := by
      rw [mapDelete_cons_self, mapDelete_eq_self ht]
    have hkne : fk ≠ jsToLower u ∧ lookupKey t (jsToLower u) = none := by
      by_cases hc : fk = jsToLower u
      · rw [show lookupKey ((fk, e) :: t) (jsToLower u) =
            some e from by simp [lookupKey, hc]] at hu
        exact absurd hu (by simp)
      · refine ⟨hc, ?_⟩
        rw [show lookupKey ((fk, e) :: t) (jsToLower u) =
            lookupKey t (jsToLower u) from by simp [lookupKey, hc]] at hu
        exact hu
    have hmain : lruSet m ((fk, e) :: t) u d now =
        t ++ [(jsToLower u, ⟨d, now⟩)] := by
      simp only [lruSet]
      rw [if_pos ⟨hlen, by rw [hu]; simp⟩]
      simp only [List.head?_cons]
      rw [if_pos hfk, hdel]
      unfold mapSet
      rw [hkne.2]
      simp
    refine ⟨hmain, ?_, ?_⟩
    · rw [hmain, lookupKey_append_none ((lookupKey_eq_none_iff t fk).mpr hnd)]
      have hne : jsToLower u ≠ fk := fun h => hkne.1 h.symm
      simp [lookupKey, hne]
    · intro k v hk hv
      rw [hmain]
      apply lookupKey_append_some
      have hne : fk ≠ k := fun h => hk h.symm
      rw [show lookupKey ((fk, e) :: t) k = lookupKey t k from by
        simp [lookupKey, hne]] at hv
      exact hv
  · intro c u now e h hfresh
    exact lruGet_hit h hfresh

theorem claim3_witness :
    ((1 : Nat) ≤ 2 ∧ "x" ≠ "" ∧ "y" ≠ "" ∧ "z" ≠ "") ∧
      (runOps 2 [.set "x" none 0, .set "y" none 1, .get "x" 2,
        .set "z" none 3]).length ≤ 2 ∧
      lruSet 2 [("x", ⟨none, 0⟩), ("y", ⟨none, 1⟩)] "z" none 3 =
        [("y", ⟨none, 1⟩), ("z", ⟨none, 3⟩)] ∧
      lruGet [("x", ⟨none, 0⟩), ("y", ⟨none, 1⟩)] "x" 2 =
        (some none, [("y", ⟨none, 1⟩), ("x", ⟨none, 0⟩)]) := by
  refine ⟨⟨by decide, by decide, by decide, by decide⟩, ?_, ?_, ?_⟩
  · refine claim3_lru_bound_and_eviction.1 2
      [.set "x" none 0, .set "y" none 1, .get "x" 2, .set "z" none 3]
      (by decide) ?_
    intro u d n hmem
    simp only [List.mem_cons, List.not_mem_nil, or_false] at hmem
    rcases hmem with h | h | h | h
    · injection h with hu hd hn
      subst hu
      decide
    · injection h with hu hd hn
      subst hu
      decide
    · exact CacheOp.noConfusion h
    · injection h with hu hd hn
      subst hu
      decide
  · exact (claim3_lru_bound_and_eviction.2.1 2 "x" ⟨none, 0⟩
      [("y", ⟨none, 1⟩)] "z" none 3 (by decide) (by decide) (by decide)
      (by decide)).1
  · exact claim3_lru_bound_and_eviction.2.2
      [("x", ⟨none, 0⟩), ("y", ⟨none, 1⟩)] "x" 2 ⟨none, 0⟩ (by decide)
      (by decide)

theorem getOrFetchBadge_hit {u : String} {now : Nat} {st : Wstate}
    {v : Option EloWardRankData} (hu : u ≠ "")
    (hr : (lruGet st.cache (jsToLower u) now).1 = some v) :
    getOrFetchBadge true u now st =
      { st with
          cache := (lruGet st.cache (jsToLower u) now).2
          userBadges := mapSet st.userBadges (jsToLower u)
            (projectBadge v) } := by
  simp only [getOrFetchBadge]
  rw [if_neg (by simp [hu])]
  split
  · rename_i v' heq
    rw [hr] at heq
    injection heq with heq'
    subst heq'
    rfl
  · rename_i heq
    rw [hr] at heq
    exact absurd heq (by simp)

theorem getOrFetchBadgeSpec_hit {u : String} {now : Nat} {st : Wstate}
    {v : Option EloWardRankData} (hu : u ≠ "")
    (hr : (lruGet st.cache (jsToLower u) now).1 = some v) :
    getOrFetchBadgeSpec true u now st =
      { st with
          cache := (lruGet st.cache (jsToLower u) now).2
          userBadges := mapSet st.userBadges (jsToLower u)
            (projectBadge v) } := by
  have hf := fetchSync_cached hu hr
  simp only [getOrFetchBadgeSpec]
  rw [hf]

theorem getOrFetchBadge_startFetch {u : String} {now : Nat} {st : Wstate}
    (hu : u ≠ "") (hr : (lruGet st.cache (jsToLower u) now).1 = none)
    (hp : lookupKey st.pending (jsToLower u) = none) :
    getOrFetchBadge true u now st =
      { st with
          cache := (lruGet st.cache (jsToLower u) now).2
          isLoading := true
          netCalls := st.netCalls + 1
          pending := mapSet st.pending (jsToLower u) st.nextReq
          nextReq := st.nextReq + 1
          conts := st.conts ++ [(st.nextReq, jsToLower u)] } := by
  have hg : lruGet (lruGet st.cache (jsToLower u) now).2 (jsToLower u) now =
      (none, (lruGet st.cache (jsToLower u) now).2) := by
    apply lruGet_of_lookup_none
    rw [jsToLower_idem]
    have hm := @lruGet_miss_lookup st.cache (jsToLower u) now hr
    rwa [jsToLower_idem] at hm
  have hf := @fetchSync_uncached_unpending u now
    { st with cache := (lruGet st.cache (jsToLower u) now).2 }
    hu (by rw [hg]) hp
  simp only [getOrFetchBadge]
  rw [if_neg (by simp [hu])]
  split
  · rename_i v heq
    rw [hr] at heq
    exact absurd heq (by simp)
  · rw [if_neg (by rw [hp]; simp), hf, hg]

theorem getOrFetchBadgeSpec_startFetch {u : String} {now : Nat} {st : Wstate}
    (hu : u ≠ "") (hr : (lruGet st.cache (jsToLower u) now).1 = none)
    (hp : lookupKey st.pending (jsToLower u) = none) :
    getOrFetchBadgeSpec true u now st =
      { st with
          cache := (lruGet st.cache (jsToLower u) now).2
          isLoading := true
          netCalls := st.netCalls + 1
          pending := mapSet st.pending (jsToLower u) st.nextReq
          nextReq := st.nextReq + 1
          conts := st.conts ++ [(st.nextReq, jsToLower u)] } := by
  have hf := fetchSync_uncached_unpending hu hr hp
  simp only [getOrFetchBadgeSpec]
  rw [hf]

/-- C6 counterexample: with a request for the key already in flight,
getOrFetchBadge returns without touching the badge store and without
attaching any store write to the pending request, whereas running the
primary resolve (which would attach to the pending request) and
projecting its result into the store writes the badge when the request
settles: after a 404 settlement the store still has no entry for the key
under getOrFetchBadge, but holds a null badge under the spec composition. -/
theorem claim6_counterexample :
    getOrFetchBadge true "alice" 1 c6state = c6state ∧
      getOrFetchBadge true "alice" 1 c6state ≠
        getOrFetchBadgeSpec true "alice" 1 c6state ∧
      lookupKey (settleStep (getOrFetchBadge true "alice" 1 c6state) "alice" 0
          (.response 404 none) 2).1.userBadges "alice" = none ∧
      lookupKey (settleStep (getOrFetchBadgeSpec true "alice" 1 c6state) "alice" 0
          (.response 404 none) 2).1.userBadges "alice" = some none := by
  decide

/-- C6 (amended): getOrFetchBadge delegates to fetchRankData and projects
its result into the badge store - immediately on a cache hit, through a
continuation on the created request otherwise - whenever the feature is
enabled, the username nonempty and no request for the key is pending; but
when a request is already in flight it returns having changed nothing
except the cache recency touched by its own cache probe, writing no badge
and attaching no projection, unlike the primary-resolve-and-project
composition. -/
theorem claim6_badge_delegation :
    (∀ (u : String) (now : Nat) (st : Wstate), u ≠ "" →
      lookupKey st.pending (jsToLower u) = none →
      getOrFetchBadge true u now st = getOrFetchBadgeSpec true u now st) ∧
    (∀ (u : String) (now : Nat) (st : Wstate) (rid : Nat), u ≠ "" →
      (lruGet st.cache (jsToLower u) now).1 = none →
      lookupKey st.pending (jsToLower u) = some rid →
      getOrFetchBadge true u now st =
        { st with cache := (lruGet st.cache (jsToLower u) now).2 }) := by
  constructor
  · intro u now st hu hp
    rcases hr : (lruGet st.cache (jsToLower u) now).1 with _ | v
    · rw [getOrFetchBadge_startFetch hu hr hp,
        getOrFetchBadgeSpec_startFetch hu hr hp]
    · rw [getOrFetchBadge_hit hu hr, getOrFetchBadgeSpec_hit hu hr]
  · intro u now st rid hu hr hp
    simp only [getOrFetchBadge]
    rw [if_neg (by simp [hu])]
    split
    · rename_i v heq
      rw [hr] at heq
      exact absurd heq (by simp)
    · rw [if_pos (by rw [hp]; rfl)]

theorem claim6_witness :
    ("bob" ≠ "" ∧ lookupKey initState.pending (jsToLower "bob") = none ∧
      "alice" ≠ "" ∧ (lruGet c6state.cache (jsToLower "alice") 1).1 = none ∧
      lookupKey c6state.pending (jsToLower "alice") = some 0) ∧
      getOrFetchBadge true "bob" 0 initState =
        getOrFetchBadgeSpec true "bob" 0 initState ∧
      getOrFetchBadge true "alice" 1 c6state =
        { c6state with cache := (lruGet c6state.cache (jsToLower "alice") 1).2 } := by
  refine ⟨⟨by decide, by decide, by decide, by decide, by decide⟩, ?_, ?_⟩
  · exact claim6_badge_delegation.1 "bob" 0 initState (by decide) (by decide)
  · exact claim6_badge_delegation.2 "alice" 1 c6state 0 (by decide) (by decide)
      (by decide)

/-- C7 counterexample: the source appends the division suffix only when
the division string is truthy, so for the record with tier gold, division
the empty string and 45 league points the code yields GOLD - 45 LP while
the claim (division present, so append a space and the division) yields
GOLD with two spaces before the dash. -/
theorem claim7_counterexample :
    formatRankText
        { tier := "gold", division := some "", leaguePoints := some 45 } =
      "GOLD - 45 LP" ∧
      formatRankTextClaimed
          { tier := "gold", division := some "", leaguePoints := some 45 } =
        "GOLD  - 45 LP" ∧
      formatRankText
          { tier := "gold", division := some "", leaguePoints := some 45 } ≠
        formatRankTextClaimed
          { tier := "gold", division := some "", leaguePoints := some 45 } := by
  decide

/-- C7 (amended): for every rank record whose division is not the empty
string, formatRankText behaves exactly as the claim describes: UNRANKED
when the tier is missing or equals unranked case-insensitively, otherwise
the uppercased tier, the division suffix when a (nonempty) division is
present and the tier is not an apex tier, and the league-points suffix
whenever leaguePoints is present, zero included.  The unamended claim
fails only on the falsy empty-string division, which the source skips. -/
theorem claim7_format_rank_text :
    ∀ rd : EloWardRankData, rd.division ≠ some "" →
      formatRankText rd = formatRankTextClaimed rd := by
  intro rd hdiv
  rcases rd with ⟨tier, division, lp, sn, rg, ab⟩
  rcases division with _ | dv
  · simp only [formatRankText, formatRankTextClaimed]
    by_cases h0 : tier = ""
    · rw [if_pos h0, if_pos (Or.inl h0)]
    · rw [if_neg h0]
      by_cases hup : jsToUpper tier = "UNRANKED"
      · rw [if_pos hup, if_pos (Or.inr (jsToLower_unranked_iff.mpr hup))]
      · have hnc : ¬(tier = "" ∨ jsToLower tier = "unranked") := by
          intro hcon
          rcases hcon with hcon | hcon
          · exact h0 hcon
          · exact hup (jsToLower_unranked_iff.mp hcon)
        rw [if_neg hup, if_neg hnc]
  · have hdv : dv ≠ "" := by
      intro h
      rw [h] at hdiv
      exact hdiv rfl
    simp only [formatRankText, formatRankTextClaimed]
    by_cases h0 : tier = ""
    · rw [if_pos h0, if_pos (Or.inl h0)]
    · rw [if_neg h0]
      by_cases hup : jsToUpper tier = "UNRANKED"
      · rw [if_pos hup, if_pos (Or.inr (jsToLower_unranked_iff.mpr hup))]
      · have hnc : ¬(tier = "" ∨ jsToLower tier = "unranked") := by
          intro hcon
          rcases hcon with hcon | hcon
          · exact h0 hcon
          · exact hup (jsToLower_unranked_iff.mp hcon)
        rw [if_neg hup, if_neg hnc]
        by_cases hap :
            (["MASTER", "GRANDMASTER", "CHALLENGER"].contains (jsToUpper tier)) = true
        · have hcode :
              ¬(dv ≠ "" ∧
                ¬(["MASTER", "GRANDMASTER", "CHALLENGER"].contains
                  (jsToUpper tier) = true)) := fun hcon => hcon.2 hap
          have hclaim :
              ¬¬(["MASTER", "GRANDMASTER", "CHALLENGER"].contains
                (jsToUpper tier) = true) := not_not_intro hap
          rw [if_neg hcode, if_neg hclaim]
        · have hcode :
              dv ≠ "" ∧
                ¬(["MASTER", "GRANDMASTER", "CHALLENGER"].contains
                  (jsToUpper tier) = true) := ⟨hdv, hap⟩
          rw [if_pos hcode, if_pos hap]

theorem claim7_witness :
    ((some "II" : Option String) ≠ some "" ∧ (none : Option String) ≠ some "" ∧
      (some "IV" : Option String) ≠ some "") ∧
      formatRankText
          { tier := "gold", division := some "II", leaguePoints := some 45 } =
        formatRankTextClaimed
          { tier := "gold", division := some "II", leaguePoints := some 45 } ∧
      formatRankText { tier := "master", leaguePoints := some 200 } =
        formatRankTextClaimed { tier := "master", leaguePoints := some 200 } ∧
      formatRankText
          { tier := "silver", division := some "IV", leaguePoints := some 0 } =
        formatRankTextClaimed
          { tier := "silver", division := some "IV", leaguePoints := some 0 } ∧
      formatRankText
          { tier := "gold", division := some "II", leaguePoints := some 45 } =
        "GOLD II - 45 LP" ∧
      formatRankText { tier := "master", leaguePoints := some 200 } =
        "MASTER - 200 LP" ∧
      formatRankText
          { tier := "silver", division := some "IV", leaguePoints := some 0 } =
        "SILVER IV - 0 LP" ∧
      formatRankText { tier := "UnRanked" } = "UNRANKED" := by
  refine ⟨⟨by decide, by decide, by decide⟩, ?_, ?_, ?_, by decide, by decide,
    by decide, by decide⟩
  · exact claim7_format_rank_text
      { tier := "gold", division := some "II", leaguePoints := some 45 }
      (by decide)
  · exact claim7_format_rank_text { tier := "master", leaguePoints := some 200 }
      (by decide)
  · exact claim7_format_rank_text
      { tier := "silver", division := some "IV", leaguePoints := some 0 }
      (by decide)

/-- C8 counterexample: the destructuring of the split keeps only the first
two segments, so for the summoner name with two hash signs the code uses
only the segment between them as the tag, while the claim (split on the
first hash sign into base and tag) keeps everything after the first hash
sign; and an empty (falsy) summoner name yields absent from the code even
though the field is present, while the claim prescribes a URL. -/
theorem claim8_counterexample :
    getOpGGUrl
        { tier := "gold", summonerName := some "a#b#c", region := some "na1" } =
      some "https://op.gg/lol/summoners/na/a-b" ∧
      getOpGGUrlClaimed
          { tier := "gold", summonerName := some "a#b#c", region := some "na1" } =
        some "https://op.gg/lol/summoners/na/a-b#c" ∧
      getOpGGUrl
          { tier := "gold", summonerName := some "a#b#c", region := some "na1" } ≠
        getOpGGUrlClaimed
          { tier := "gold", summonerName := some "a#b#c", region := some "na1" } ∧
      getOpGGUrl
          { tier := "gold", summonerName := some "", region := some "na1" } =
        none ∧
      getOpGGUrlClaimed
          { tier := "gold", summonerName := some "", region := some "na1" } =
        some "https://op.gg/lol/summoners/na/-NA1" := by
  decide

/-- C8 (amended): getOpGGUrl returns absent unless the summoner name is
present and nonempty, the region is present and nonempty, and the
lowercased region is a key of the OP.GG table (a table distinct from the
display table); when it returns a URL, the base name is the segment of
the summoner name before the first hash sign, percent-encoded, and the
tag is the segment between the first and second hash signs when that
segment is present and nonempty, the uppercased region code otherwise.
The unamended claim fails only on the discarded segments after a second
hash sign and on empty-string (falsy) presence. -/
theorem claim8_opgg_url :
    (∀ rd : EloWardRankData,
      rd.summonerName = none ∨ rd.summonerName = some "" ∨
        rd.region = none ∨ rd.region = some "" →
      getOpGGUrl rd = none) ∧
    (∀ (rd : EloWardRankData) (sn rg : String),
      rd.summonerName = some sn → rd.region = some rg →
      lookupKey regionMapping (jsToLower rg) = none →
      getOpGGUrl rd = none) ∧
    (∀ (rd : EloWardRankData) (sn rg slug : String),
      rd.summonerName = some sn → sn ≠ "" →
      rd.region = some rg → rg ≠ "" →
      lookupKey regionMapping (jsToLower rg) = some slug →
      getOpGGUrl rd =
        some ("https://op.gg/lol/summoners/" ++ slug ++ "/" ++
          encodeURIComponent ((jsSplitChar '#' sn).headD "") ++ "-" ++
          (((jsSplitChar '#' sn).get? 1).elim (jsToUpper rg)
            (fun t => if t = "" then jsToUpper rg else t)))) ∧
    regionMapping ≠ regionMap := by
  refine ⟨?_, ?_, ?_, by decide⟩
  · intro rd hcase
    rcases rd with ⟨tier, dv, lp, sn', rg', ab⟩
    simp only at hcase
    rcases hcase with h | h | h | h
    · rw [show sn' = none from h]
      rcases rg' with _ | rg <;> rfl
    · rw [show sn' = some "" from h]
      rcases rg' with _ | rg
      · rfl
      · simp [getOpGGUrl]
    · rw [show rg' = none from h]
      rcases sn' with _ | sn <;> rfl
    · rw [show rg' = some "" from h]
      rcases sn' with _ | sn
      · rfl
      · simp [getOpGGUrl]
  · intro rd sn rg hsn hrg hmap
    rcases rd with ⟨tier, dv, lp, sn', rg', ab⟩
    simp only at hsn hrg
    rw [hsn, hrg]
    simp only [getOpGGUrl]
    split
    · rfl
    · rw [hmap]
  · intro rd sn rg slug hsn hne hrg hrgne hmap
    rcases rd with ⟨tier, dv, lp, sn', rg', ab⟩
    simp only at hsn hrg
    rw [hsn, hrg]
    simp only [getOpGGUrl]
    rw [if_neg (by
      intro hcon
      rcases hcon with hcon | hcon
      · exact hne hcon
      · exact hrgne hcon)]
    split
    · rename_i heq
      rw [hmap] at heq
      exact absurd heq (by simp)
    · rename_i opgg heq
      rw [hmap] at heq
      injection heq with heq'
      subst heq'
      rcases (jsSplitChar '#' sn).get? 1 with _ | t
      · rfl
      · rfl

theorem claim8_witness :
    ((some "Hide on bush#KR1" : Option String) = some "Hide on bush#KR1" ∧
      "Hide on bush#KR1" ≠ "" ∧ "kr" ≠ "" ∧
      lookupKey regionMapping (jsToLower "kr") = some "kr" ∧
      lookupKey regionMapping (jsToLower "zz9") = none) ∧
      getOpGGUrl
          { tier := "gold", summonerName := some "Hide on bush#KR1",
            region := some "kr" } =
        some "https://op.gg/lol/summoners/kr/Hide%20on%20bush-KR1" ∧
      getOpGGUrl
          { tier := "gold", summonerName := some "Faker", region := some "kr" } =
        some "https://op.gg/lol/summoners/kr/Faker-KR" ∧
      getOpGGUrl
          { tier := "gold", summonerName := some "Faker", region := some "zz9" } =
        none ∧
      getOpGGUrl { tier := "gold", region := some "kr" } = none := by
  refine ⟨⟨rfl, by decide, by decide, by decide, by decide⟩, ?_, ?_, ?_, ?_⟩
  · have h := claim8_opgg_url.2.2.1
      { tier := "gold", summonerName := some "Hide on bush#KR1",
          region := some "kr" }
      "Hide on bush#KR1" "kr" "kr" rfl (by decide) rfl (by decide) (by decide)
    rw [h]
    decide
  · have h := claim8_opgg_url.2.2.1
      { tier := "gold", summonerName := some "Faker", region := some "kr" }
      "Faker" "kr" "kr" rfl (by decide) rfl (by decide) (by decide)
    rw [h]
    decide
  · exact claim8_opgg_url.2.1
      { tier := "gold", summonerName := some "Faker", region := some "zz9" }
      "Faker" "zz9" rfl rfl (by decide)
  · exact claim8_opgg_url.1 { tier := "gold", region := some "kr" }
      (Or.inl rfl)

end EloWard
